import Mathlib

/-!
Verification development for `stock_app_full.py`, a single-file stock
valuation web application.  The definitions below are a shallow embedding
of the program's pure logic: Python floats are modelled as exact rationals
(`ℚ`) extended with the non-finite values `inf`, `-inf` and `nan` where the
parsing layer can produce them; Python `None` is `Option.none`; fallible
parsing returns `Option`.  Each definition mirrors one function (or one
self-contained fragment) of the source file, keeping the source's names.
-/

namespace StockApp

/-- The values Python `float(...)` can produce: a finite value (modelled as
an exact rational; binary rounding of decimal literals is not modelled),
positive and negative infinity, and NaN. -/
inductive PyFloat where
  | finite (q : ℚ)
  | inf
  | neginf
  | nan
deriving DecidableEq, Repr

/-- The inputs `to_float` receives in the program: `None`, a string
(scraped text), or an already-numeric value. -/
inductive PyVal where
  | none
  | str (s : String)
  | num (p : PyFloat)
deriving DecidableEq, Repr

/-- Python whitespace as matched by `str.strip()` and the regex class
`\s` (space, tab, newline, carriage return, vertical tab, form feed). -/
def isPySpace (c : Char) : Bool :=
  c == ' ' || c == '\t' || c == '\n' || c == '\r' ||
    c == Char.ofNat 11 || c == Char.ofNat 12

/-- Value of a decimal digit string (most significant first). -/
def digitsToNat (l : List Char) : ℕ :=
  l.foldl (fun a c => 10 * a + (c.toNat - 48)) 0

/-- Strip `isPySpace` characters from both ends, as `str.strip()` does. -/
def stripList (l : List Char) : List Char :=
  ((l.dropWhile isPySpace).reverse.dropWhile isPySpace).reverse

/-- Python `str.replace(c, '')` for a single-character pattern (the `,`
and `₹` replacements in `to_float`): deleting every occurrence. -/
def removeChar (c0 : Char) (l : List Char) : List Char :=
  l.filter (fun c => !(c == c0))

/-- Python `str.replace('Rs.', '')`: delete all non-overlapping
occurrences of the three-character pattern, scanning left to right. -/
def removeRs : List Char → List Char
  | 'R' :: 's' :: '.' :: rest => removeRs rest
  | c :: cs => c :: removeRs cs
  | [] => []

/-- Python `str.upper()` (ASCII case mapping; the tickers and queries in
this program are ASCII). -/
def pyUpper (s : String) : String := String.mk (s.data.map Char.toUpper)

/-- Python `str.strip()`. -/
def pyStrip (s : String) : String := String.mk (stripList s.data)

/-- Python `s.startswith(pat)`. -/
def pyStartsWith (s pat : String) : Bool := pat.data.isPrefixOf s.data

/-- Optional exponent suffix of a Python float literal: either the input is
exhausted, or it is `e`/`E`, an optional sign and at least one digit with
nothing after.  (Digit-group underscores are not modelled; no theorem below
evaluates an input containing them.) -/
def expTail (mant : ℚ) (l : List Char) : Option ℚ :=
  match l with
  | [] => some mant
  | c :: r =>
    if c == 'e' || c == 'E' then
      let sr : Bool × List Char :=
        match r with
        | '+' :: t => (false, t)
        | '-' :: t => (true, t)
        | t => (false, t)
      let ds := sr.2.takeWhile Char.isDigit
      let rest := sr.2.dropWhile Char.isDigit
      if ds.isEmpty || !rest.isEmpty then Option.none
      else
        let e : ℤ := if sr.1 then -(digitsToNat ds : ℤ) else (digitsToNat ds : ℤ)
        some (mant * (10 : ℚ) ^ e)
    else Option.none

/-- Unsigned part of a Python float literal: digits, an optional decimal
point with further digits (at least one digit overall), and an optional
exponent; the whole input must be consumed. -/
def parseUnsigned (l : List Char) : Option ℚ :=
  let ip := l.takeWhile Char.isDigit
  let r1 := l.dropWhile Char.isDigit
  match r1 with
  | '.' :: r2 =>
    let fp := r2.takeWhile Char.isDigit
    let r3 := r2.dropWhile Char.isDigit
    if ip.isEmpty && fp.isEmpty then Option.none
    else expTail ((digitsToNat ip : ℚ) + (digitsToNat fp : ℚ) / (10 : ℚ) ^ fp.length) r3
  | _ =>
    if ip.isEmpty then Option.none
    else expTail (digitsToNat ip : ℚ) r1

/-- Model of Python `float(token)` on a string: surrounding whitespace and
an optional sign, then `inf`/`infinity`/`nan` (case-insensitive) or a
decimal literal; anything else raises `ValueError`, modelled as `none`.
(Magnitude overflow of huge finite literals to infinity is not modelled.) -/
def pyFloatOfChars (l0 : List Char) : Option PyFloat :=
  let l := stripList l0
  let sr : Bool × List Char :=
    match l with
    | '+' :: t => (false, t)
    | '-' :: t => (true, t)
    | t => (false, t)
  let low := sr.2.map Char.toLower
  if low = ['i', 'n', 'f'] || low = ['i', 'n', 'f', 'i', 'n', 'i', 't', 'y'] then
    some (if sr.1 then PyFloat.neginf else PyFloat.inf)
  else if low = ['n', 'a', 'n'] then some PyFloat.nan
  else
    match parseUnsigned sr.2 with
    | some q => some (PyFloat.finite (if sr.1 then -q else q))
    | Option.none => Option.none

/-- `to_float` (source lines 54-62): `None` maps to `None`; otherwise the
value is rendered as a string, `,`, `₹` and `Rs.` are removed, the result
is stripped, the first whitespace-delimited token is taken (`re.split`
with `\s+`), and `float(...)` is attempted, any failure yielding `None`.
For an already-numeric input, `str(x)` followed by `float(...)` restores
the same value (Python float repr round-trips, and the removed substrings
never occur in it), so the `num` case returns the input unchanged. -/
def to_float (x : PyVal) : Option PyFloat :=
  match x with
  | PyVal.none => Option.none
  | PyVal.num p => some p
  | PyVal.str s =>
    let cleaned := removeRs (removeChar '₹' (removeChar ',' s.data))
    let token := (stripList cleaned).takeWhile (fun c => !(isPySpace c))
    pyFloatOfChars token

/-- Python `round(x, 2)` rounds half to even.  Rounding the rational
`100 * x` to the nearest integer, ties to even.  (The double rounding a
binary float representation would introduce is not modelled; no theorem
below depends on a value within a binary ulp of a tie.) -/
def rhe (x : ℚ) : ℤ :=
  if x - ⌊x⌋ < 1 / 2 then ⌊x⌋
  else if (1 : ℚ) / 2 < x - ⌊x⌋ then ⌊x⌋ + 1
  else if ⌊x⌋ % 2 = 0 then ⌊x⌋ else ⌊x⌋ + 1

/-- `round(float(fair), 2)` from the source, on rationals. -/
def round2 (x : ℚ) : ℚ := (rhe (100 * x) : ℚ) / 100

/-- Python truthiness selection `x if x else d` for an optional float:
`None` and `0` select the default `d`; any other value selects itself. -/
def pyTruthyGetD (o : Option ℚ) (d : ℚ) : ℚ :=
  match o with
  | Option.none => d
  | some x => if x = 0 then d else x

/-- Sanity addend by growth bracket (source lines 204-209):
`growth < 0.05` gives 2, `growth < 0.15` gives 3, otherwise 4. -/
def sanity_addend (g : ℚ) : ℚ :=
  if g < 1 / 20 then 2 else if g < 3 / 20 then 3 else 4

/-- Fair-P/E cap by growth bracket (source lines 212-217): 12 / 18 / 25. -/
def pe_cap (g : ℚ) : ℚ :=
  if g < 1 / 20 then 12 else if g < 3 / 20 then 18 else 25

/-- `base = hist_val + san` where `hist_val = hist_pe if hist_pe else 0`
(source lines 200-210); a falsy (absent or zero) trailing P/E counts as 0. -/
def fair_base (hist_pe : Option ℚ) (g : ℚ) : ℚ :=
  pyTruthyGetD hist_pe 0 + sanity_addend g

/-- `chosen = min(industry_pe if industry_pe else base, base)` (source
line 211); a falsy (absent or zero) industry P/E selects `base`. -/
def fair_chosen (industry_pe hist_pe : Option ℚ) (g : ℚ) : ℚ :=
  min (pyTruthyGetD industry_pe (fair_base hist_pe g)) (fair_base hist_pe g)

/-- `determine_fair_pe` (source lines 197-222): growth defaults to 0.08
when `None`; the result is `round(min(chosen, cap), 2)`.  The source's
`try`/`except` guards cannot fire on numeric inputs and are not modelled. -/
def determine_fair_pe (industry_pe hist_pe growth : Option ℚ) : ℚ :=
  let g := growth.getD (8 / 100)
  round2 (min (fair_chosen industry_pe hist_pe g) (pe_cap g))

/-- The valuation fields computed by the `/query` handler. -/
structure ValuationResult where
  fair_pe : ℚ
  forward_eps : Option ℚ
  intrinsic_value : Option ℚ
  buy_price : Option ℚ
  sell_price : Option ℚ
  decision : String
deriving DecidableEq, Repr

/-- The valuation block of the `/query` handler (source lines 331-352),
after the provider values have been merged: growth is fixed at 0.10; with
`eps` present the forward EPS, intrinsic value and thresholds are derived
and the decision compares the market price inclusively against them (BUY
tested first); with `eps` absent everything is absent and the decision is
UNKNOWN. -/
def query_valuation (eps pe industry_pe market_price : Option ℚ) : ValuationResult :=
  let growth : ℚ := 1 / 10
  let fair := determine_fair_pe industry_pe pe (some growth)
  match eps with
  | Option.none =>
    { fair_pe := fair, forward_eps := Option.none, intrinsic_value := Option.none,
      buy_price := Option.none, sell_price := Option.none, decision := "UNKNOWN" }
  | some e =>
    let fwd := e * (1 + growth)
    let iv := fwd * fair
    let buy := iv * (1 - 3 / 10)
    let sell := iv * (1 + 3 / 10)
    let dec :=
      match market_price with
      | some mp => if mp ≤ buy then "BUY" else if sell ≤ mp then "SELL" else "HOLD"
      | Option.none => "UNKNOWN"
    { fair_pe := fair, forward_eps := some fwd, intrinsic_value := some iv,
      buy_price := some buy, sell_price := some sell, decision := dec }

/-- A fundamentals record as produced by either provider (`fetch_yf`,
`fetch_screener`): each field independently optional. -/
structure Fundamentals where
  eps : Option ℚ
  pe : Option ℚ
  industry_pe : Option ℚ
deriving DecidableEq, Repr

/-- One field of the merge step `a if a is not None else b`
(source lines 327-329). -/
def merge_field {α : Type} (p f : Option α) : Option α :=
  match p with
  | some v => some v
  | Option.none => f

/-- Field-wise merge of the primary (yfinance) and fallback (Screener)
fundamentals (source lines 327-329). -/
def merge_fundamentals (yfr scr : Fundamentals) : Fundamentals :=
  { eps := merge_field yfr.eps scr.eps,
    pe := merge_field yfr.pe scr.pe,
    industry_pe := merge_field yfr.industry_pe scr.industry_pe }

/-- The `/query` handler's data path (source lines 303-352) from the point
the three fetches have returned: the market price comes from the NSE
snapshot through `to_float`, the two fundamentals records are merged
field-wise, and the merged values feed the valuation block.  The handler
calls `fetch_screener` unconditionally, so the fallback record is an input
on every path. -/
def query_route (market_price : Option ℚ) (yfr scr : Fundamentals) : ValuationResult :=
  let m := merge_fundamentals yfr scr
  query_valuation m.eps m.pe m.industry_pe market_price

/-- The process-wide cache `CACHE`: a map from string keys to a stored
value together with its absolute expiry time.  Time is an abstract integer
clock (the code uses `datetime.utcnow()`). -/
def Cache (α : Type) : Type := String → Option (α × ℤ)

/-- The empty cache (the module-level `CACHE = {}`). -/
def emptyCache (α : Type) : Cache α := fun _ => Option.none

/-- `cache_get` (source lines 40-48): a missing row is a miss; a row whose
expiry lies strictly in the past is deleted and reported as a miss;
otherwise the stored value is returned.  Returns the possibly-updated
cache alongside the result.  (The code's `if not row` tests the stored
2-tuple, which is always truthy, so it is exactly a presence test.) -/
def cache_get {α : Type} (now : ℤ) (c : Cache α) (k : String) : Option α × Cache α :=
  match c k with
  | Option.none => (Option.none, c)
  | some (v, expires) =>
    if expires < now then
      (Option.none, fun j => if j = k then Option.none else c j)
    else (some v, c)

/-- `cache_set` (source lines 50-51): unconditionally store the value with
expiry `now + ttl`. -/
def cache_set {α : Type} (now : ℤ) (c : Cache α) (k : String) (v : α) (ttl : ℤ) : Cache α :=
  fun j => if j = k then some (v, now + ttl) else c j

/-- `load_nse_list` (source lines 65-70): keep non-blank lines, stripped
and uppercased.  (The file read itself is I/O; the line list is the
parameter.) -/
def load_nse_list (lines : List String) : List String :=
  (lines.filter (fun ln => pyStrip ln ≠ "")).map (fun ln => pyUpper (pyStrip ln))

/-- `search_api` (source lines 75-81): uppercase and strip the query; a
falsy (empty) query answers the empty list; otherwise keep the directory
entries that start with the query, in order, truncated to 25. -/
def search_api (query : String) (tickers : List String) : List String :=
  let q := pyStrip (pyUpper query)
  if q = "" then []
  else (tickers.filter (fun s => pyStartsWith s q)).take 25

/-!
The free-text P/E fallback of `fetch_screener` (source lines 183-192) runs
`re.search(r'P/?E\\s*[:\\-]?\\s*([0-9]+\\.?[0-9]*)', txt, re.I)`.  The
pattern is a *raw* string, so each `\\` reaches the regex engine as two
characters and is parsed as an escaped literal backslash.  The engine
therefore looks for: `P`, an optional `/`, `E`, a literal `\`, zero or
more `s`, optionally one of `:` `\` `-`, a literal `\`, zero or more `s`,
then the capture group: one or more digits, a literal `\`, optionally any
character but a newline, zero or more digits.  (`re.I` makes the letters
case-insensitive.)  The combinators below enumerate match alternatives in
the engine's backtracking order (greedy first) and the search scans
positions left to right, so the first result is the engine's match.
-/

/-- Match one character satisfying `p`; result is the list of possible
remainders (empty = no match). -/
def charAlt (p : Char → Bool) : List Char → List (List Char)
  | [] => []
  | c :: cs => if p c then [cs] else []

/-- Optionally match one character satisfying `p` (greedy: consuming
alternative first). -/
def optC (p : Char → Bool) (l : List Char) : List (List Char) :=
  charAlt p l ++ [l]

/-- `s*` under `re.I`: zero or more `s`/`S`, longest alternative first. -/
def sStar : List Char → List (List Char)
  | [] => [[]]
  | c :: cs => (if c == 's' || c == 'S' then sStar cs else []) ++ [c :: cs]

/-- `[0-9]+` capturing: alternatives as (captured, remainder), longest
first. -/
def digitsPlusG : List Char → List (List Char × List Char)
  | [] => []
  | c :: cs =>
    if c.isDigit then
      ((digitsPlusG cs).map (fun p => (c :: p.1, p.2))) ++ [([c], cs)]
    else []

/-- `[0-9]*` capturing, longest first. -/
def digitsStarG : List Char → List (List Char × List Char)
  | [] => [([], [])]
  | c :: cs =>
    (if c.isDigit then (digitsStarG cs).map (fun p => (c :: p.1, p.2)) else []) ++
      [([], c :: cs)]

/-- One character satisfying `p`, capturing. -/
def charAltG (p : Char → Bool) : List Char → List (List Char × List Char)
  | [] => []
  | c :: cs => if p c then [([c], cs)] else []

/-- Optional single character, capturing, greedy. -/
def optG (p : Char → Bool) (l : List Char) : List (List Char × List Char) :=
  charAltG p l ++ [([], l)]

/-- The capture group `([0-9]+\\.?[0-9]*)` as the engine reads it:
digits, a literal backslash, an optional non-newline character, digits. -/
def groupG (l : List Char) : List (List Char × List Char) :=
  (digitsPlusG l).bind (fun p1 =>
    (charAltG (fun c => c == '\\') p1.2).bind (fun p2 =>
      (optG (fun c => c != '\n') p2.2).bind (fun p3 =>
        (digitsStarG p3.2).map (fun p4 => (p1.1 ++ p2.1 ++ p3.1 ++ p4.1, p4.2)))))

/-- The pattern part before the capture group: `P`, optional `/`, `E`,
literal `\`, `s*`, optional `[:\-]`, literal `\`, `s*` (letters
case-insensitive). -/
def preMatch (l : List Char) : List (List Char) :=
  (charAlt (fun c => c == 'P' || c == 'p') l).bind (fun r1 =>
  (optC (fun c => c == '/') r1).bind (fun r2 =>
  (charAlt (fun c => c == 'E' || c == 'e') r2).bind (fun r3 =>
  (charAlt (fun c => c == '\\') r3).bind (fun r4 =>
  (sStar r4).bind (fun r5 =>
  (optC (fun c => c == ':' || c == '\\' || c == '-') r5).bind (fun r6 =>
  (charAlt (fun c => c == '\\') r6).bind (fun r7 =>
  sStar r7)))))))

/-- All captures of the full pattern anchored at the start of `l`,
in backtracking order. -/
def matchAtG (l : List Char) : List (List Char) :=
  (preMatch l).bind (fun r => (groupG r).map (fun p => p.1))

/-- `re.search` for this pattern: scan positions left to right and return
the first capture (`m.group(1)`), or `none` when the pattern matches
nowhere. -/
def reSearchPE : List Char → Option (List Char)
  | [] =>
    match matchAtG [] with
    | g :: _ => some g
    | [] => Option.none
  | c :: cs =>
    match matchAtG (c :: cs) with
    | g :: _ => some g
    | [] => reSearchPE cs

/-- The free-text P/E extraction of `fetch_screener` when the structured
snapshot table produced nothing (source lines 183-190): `pe_val` is the
regex capture if the search succeeds, else `None`, and the output field is
`to_float(pe_val)`. -/
def screener_freetext_pe (txt : String) : Option PyFloat :=
  to_float
    (match reSearchPE txt.data with
     | some g => PyVal.str (String.mk g)
     | Option.none => PyVal.none)

/-- The primary-provider fundamentals of the worked example: EPS 100,
trailing P/E 15, no industry P/E. -/
def yf_example : Fundamentals :=
  { eps := some 100, pe := some 15, industry_pe := Option.none }

/-- An all-absent fallback fundamentals record. -/
def sc_absent : Fundamentals :=
  { eps := Option.none, pe := Option.none, industry_pe := Option.none }

/-! ### Properties of half-to-even rounding -/

theorem rhe_ge_floor (x : ℚ) : ⌊x⌋ ≤ rhe x := by
  unfold rhe; split_ifs <;> omega

theorem rhe_le_floor_add_one (x : ℚ) : rhe x ≤ ⌊x⌋ + 1 := by
  unfold rhe; split_ifs <;> omega

theorem rhe_le_of_le {x : ℚ} {n : ℤ} (h : x ≤ (n : ℚ)) : rhe x ≤ n := by
  have hf : ⌊x⌋ ≤ n := by
    have h2 := Int.floor_mono h
    simpa using h2
  have hfl : (⌊x⌋ : ℚ) ≤ x := Int.floor_le x
  unfold rhe
  split_ifs with h1 h2 h3
  · exact hf
  · have hlt : (⌊x⌋ : ℚ) < (n : ℚ) := by linarith
    have : ⌊x⌋ < n := by exact_mod_cast hlt
    omega
  · exact hf
  · have hx : x - ⌊x⌋ = 1 / 2 := le_antisymm (not_lt.1 h2) (not_lt.1 h1)
    have hlt : (⌊x⌋ : ℚ) < (n : ℚ) := by linarith
    have : ⌊x⌋ < n := by exact_mod_cast hlt
    omega

theorem rhe_mono {x y : ℚ} (h : x ≤ y) : rhe x ≤ rhe y := by
  have hfm : ⌊x⌋ ≤ ⌊y⌋ := Int.floor_mono h
  rcases lt_or_eq_of_le hfm with hlt | heq
  · calc rhe x ≤ ⌊x⌋ + 1 := rhe_le_floor_add_one x
      _ ≤ ⌊y⌋ := by omega
      _ ≤ rhe y := rhe_ge_floor y
  · unfold rhe
    rw [← heq]
    split_ifs <;> first | omega | linarith

theorem round2_le_intCast {x : ℚ} {n : ℤ} (h : x ≤ (n : ℚ)) : round2 x ≤ (n : ℚ) := by
  unfold round2
  have h100 : (100 : ℚ) * x ≤ ((100 * n : ℤ) : ℚ) := by push_cast; linarith
  have hr := rhe_le_of_le h100
  rw [div_le_iff (by norm_num : (0 : ℚ) < 100)]
  calc (rhe (100 * x) : ℚ) ≤ ((100 * n : ℤ) : ℚ) := by exact_mod_cast hr
    _ = (n : ℚ) * 100 := by push_cast; ring

theorem round2_mono {x y : ℚ} (h : x ≤ y) : round2 x ≤ round2 y := by
  unfold round2
  have hr := rhe_mono (by linarith : (100 : ℚ) * x ≤ 100 * y)
  have hrq : (rhe (100 * x) : ℚ) ≤ (rhe (100 * y) : ℚ) := by exact_mod_cast hr
  exact (div_le_div_right (by norm_num : (0 : ℚ) < 100)).mpr hrq

/-- The fair P/E never exceeds the cap of the growth bracket in force. -/
theorem determine_fair_pe_le_pe_cap (ind tpe : Option ℚ) (g : ℚ) :
    determine_fair_pe ind tpe (some g) ≤ pe_cap g := by
  have hmin : min (fair_chosen ind tpe g) (pe_cap g) ≤ pe_cap g := min_le_right _ _
  obtain ⟨n, hn⟩ : ∃ n : ℤ, pe_cap g = (n : ℚ) := by
    unfold pe_cap; split_ifs
    · exact ⟨12, by norm_num⟩
    · exact ⟨18, by norm_num⟩
    · exact ⟨25, by norm_num⟩
  simp only [determine_fair_pe, Option.getD_some]
  rw [hn] at hmin ⊢
  exact round2_le_intCast hmin

/-- Evaluation of the fair P/E at the worked example's inputs. -/
theorem fair_pe_at_example : determine_fair_pe Option.none (some 15) (some (1 / 10)) = 18 := by
  norm_num [determine_fair_pe, fair_chosen, fair_base, pyTruthyGetD, sanity_addend,
    pe_cap, round2, rhe, min_def]

/-- C1: with eps=100, growth=0.10, trailing_pe=15 and industry_pe absent,
the engine yields sanity_addend=3, base=18, fair_pe=18, forward_eps=110,
intrinsic_value=1980, buy_price=1386 and sell_price=2574; the decision is
BUY at market_price=1300, SELL at 2600 and HOLD at 2000; both threshold
comparisons are inclusive (a price exactly at the buy threshold gives BUY,
exactly at the sell threshold gives SELL, BUY being tested first). -/
theorem C1_decision_example :
    sanity_addend (1 / 10) = 3 ∧
    fair_base (some 15) (1 / 10) = 18 ∧
    determine_fair_pe Option.none (some 15) (some (1 / 10)) = 18 ∧
    (query_route (some 2000) yf_example sc_absent).fair_pe = 18 ∧
    (query_route (some 2000) yf_example sc_absent).forward_eps = some 110 ∧
    (query_route (some 2000) yf_example sc_absent).intrinsic_value = some 1980 ∧
    (query_route (some 2000) yf_example sc_absent).buy_price = some 1386 ∧
    (query_route (some 2000) yf_example sc_absent).sell_price = some 2574 ∧
    (query_route (some 1300) yf_example sc_absent).decision = "BUY" ∧
    (query_route (some 2600) yf_example sc_absent).decision = "SELL" ∧
    (query_route (some 2000) yf_example sc_absent).decision = "HOLD" ∧
    (query_route (some 1386) yf_example sc_absent).decision = "BUY" ∧
    (query_route (some 2574) yf_example sc_absent).decision = "SELL" := by
  have hfair := fair_pe_at_example
  refine ⟨?_, ?_, ?_, ?_, ?_, ?_, ?_, ?_, ?_, ?_, ?_, ?_, ?_⟩ <;>
    norm_num [query_route, query_valuation, merge_fundamentals, merge_field,
      yf_example, sc_absent, hfair, sanity_addend, fair_base, pyTruthyGetD]

/-- C2: for every trailing_pe ≥ 0, every optional industry_pe and every
growth, the fair P/E never exceeds the growth-bracket cap: 12 on
[0, 0.05), 18 on [0.05, 0.15), 25 on [0.15, ∞). -/
theorem C2_fair_pe_le_cap (tpe : ℚ) (ind : Option ℚ) (g : ℚ) (htpe : 0 ≤ tpe) :
    (0 ≤ g → g < 1 / 20 → determine_fair_pe ind (some tpe) (some g) ≤ 12) ∧
    (1 / 20 ≤ g → g < 3 / 20 → determine_fair_pe ind (some tpe) (some g) ≤ 18) ∧
    (3 / 20 ≤ g → determine_fair_pe ind (some tpe) (some g) ≤ 25) := by
  have hle := determine_fair_pe_le_pe_cap ind (some tpe) g
  refine ⟨fun _ h1 => ?_, fun h1 h2 => ?_, fun h1 => ?_⟩
  · have hcap : pe_cap g = 12 := by unfold pe_cap; rw [if_pos h1]
    rw [hcap] at hle; exact hle
  · have hn : ¬g < 1 / 20 := not_lt.2 h1
    have hcap : pe_cap g = 18 := by unfold pe_cap; rw [if_neg hn, if_pos h2]
    rw [hcap] at hle; exact hle
  · have hn1 : ¬g < 1 / 20 := by intro hc; linarith
    have hn2 : ¬g < 3 / 20 := by intro hc; linarith
    have hcap : pe_cap g = 25 := by unfold pe_cap; rw [if_neg hn1, if_neg hn2]
    rw [hcap] at hle; exact hle

theorem C2_fair_pe_le_cap_witness :
    determine_fair_pe Option.none (some 15) (some (1 / 10)) ≤ 18 :=
  (C2_fair_pe_le_cap 15 Option.none (1 / 10) (by norm_num)).2.1
    (by norm_num) (by norm_num)

/-- C3: for fixed trailing P/E and growth, supplying an industry P/E
`x ≤ base` never raises the fair P/E above the value with industry P/E
absent, and with industry P/E absent `chosen` equals `base`. -/
theorem C3_industry_pe_pulls_down (tpe g : Option ℚ) (x : ℚ)
    (hx : x ≤ fair_base tpe (g.getD (8 / 100))) :
    determine_fair_pe (some x) tpe g ≤ determine_fair_pe Option.none tpe g ∧
    fair_chosen Option.none tpe (g.getD (8 / 100)) = fair_base tpe (g.getD (8 / 100)) := by
  have hb : fair_chosen Option.none tpe (g.getD (8 / 100)) =
      fair_base tpe (g.getD (8 / 100)) := by
    simp [fair_chosen, pyTruthyGetD]
  refine ⟨?_, hb⟩
  simp only [determine_fair_pe]
  apply round2_mono
  apply min_le_min _ le_rfl
  rw [hb]
  exact min_le_right _ _

theorem C3_industry_pe_pulls_down_witness :
    (10 : ℚ) ≤ fair_base (some 15) ((some (1 / 10)).getD (8 / 100)) ∧
    determine_fair_pe (some 10) (some 15) (some (1 / 10)) ≤
      determine_fair_pe Option.none (some 15) (some (1 / 10)) :=
  ⟨by norm_num [fair_base, pyTruthyGetD, sanity_addend],
   (C3_industry_pe_pulls_down (some 15) (some (1 / 10)) 10
     (by norm_num [fair_base, pyTruthyGetD, sanity_addend])).1⟩

/-- C4: with eps absent the valuation short-circuits for every market
price, trailing P/E and industry P/E: forward EPS, intrinsic value, buy
and sell prices are all absent and the decision is UNKNOWN. -/
theorem C4_missing_eps_short_circuit (pe ind mp : Option ℚ) :
    (query_valuation Option.none pe ind mp).forward_eps = Option.none ∧
    (query_valuation Option.none pe ind mp).intrinsic_value = Option.none ∧
    (query_valuation Option.none pe ind mp).buy_price = Option.none ∧
    (query_valuation Option.none pe ind mp).sell_price = Option.none ∧
    (query_valuation Option.none pe ind mp).decision = "UNKNOWN" := by
  simp [query_valuation]

/-- C5: the merged fundamentals equal the primary's field when present,
else the fallback's, independently per field; and the handler's valuation
is a function of the merge of both provider records for every request, the
fallback record entering unconditionally. -/
theorem C5_merge_policy (p f : Fundamentals) :
    ((p.eps ≠ Option.none → (merge_fundamentals p f).eps = p.eps) ∧
     (p.eps = Option.none → (merge_fundamentals p f).eps = f.eps)) ∧
    ((p.pe ≠ Option.none → (merge_fundamentals p f).pe = p.pe) ∧
     (p.pe = Option.none → (merge_fundamentals p f).pe = f.pe)) ∧
    ((p.industry_pe ≠ Option.none → (merge_fundamentals p f).industry_pe = p.industry_pe) ∧
     (p.industry_pe = Option.none → (merge_fundamentals p f).industry_pe = f.industry_pe)) ∧
    (∀ mp, query_route mp p f =
      query_valuation (merge_fundamentals p f).eps (merge_fundamentals p f).pe
        (merge_fundamentals p f).industry_pe mp) := by
  have h : ∀ a b : Option ℚ,
      (a ≠ Option.none → merge_field a b = a) ∧ (a = Option.none → merge_field a b = b) := by
    intro a b
    cases a <;> simp [merge_field]
  exact ⟨h p.eps f.eps, h p.pe f.pe, h p.industry_pe f.industry_pe, fun mp => rfl⟩

theorem C5_merge_policy_witness :
    (merge_fundamentals ⟨some 5, Option.none, Option.none⟩ ⟨some 7, some 9, Option.none⟩).eps
        = some 5 ∧
    (merge_fundamentals ⟨some 5, Option.none, Option.none⟩ ⟨some 7, some 9, Option.none⟩).pe
        = some 9 :=
  ⟨(C5_merge_policy ⟨some 5, Option.none, Option.none⟩ ⟨some 7, some 9, Option.none⟩).1.1
      (by simp),
   (C5_merge_policy ⟨some 5, Option.none, Option.none⟩ ⟨some 7, some 9, Option.none⟩).2.1.2
      rfl⟩

/-- C10: `determine_fair_pe` tests its optional arguments by Python
truthiness: a zero industry P/E is treated as absent (it selects `base`
instead of pulling the multiple to 0), a zero trailing P/E is treated as
absent (`base = sanity_addend`), and `(0, 0, growth)` computes exactly the
same fair P/E as `(None, None, growth)` for every growth value. -/
theorem C10_truthiness :
    (∀ g : Option ℚ, determine_fair_pe (some 0) (some 0) g =
      determine_fair_pe Option.none Option.none g) ∧
    (∀ (g : Option ℚ) (ind : Option ℚ), determine_fair_pe ind (some 0) g =
      determine_fair_pe ind Option.none g) ∧
    (∀ (g : Option ℚ) (tpe : Option ℚ), determine_fair_pe (some 0) tpe g =
      determine_fair_pe Option.none tpe g) ∧
    (∀ g : ℚ, fair_chosen (some 0) (some 0) g = fair_base (some 0) g ∧
      fair_base (some 0) g = sanity_addend g) := by
  refine ⟨fun g => ?_, fun g ind => ?_, fun g tpe => ?_, fun g => ⟨?_, ?_⟩⟩ <;>
    simp [determine_fair_pe, fair_chosen, fair_base, pyTruthyGetD]

/-- C6 counterexample: the input string `"inf"` parses (Python
`float('inf')` succeeds) and `to_float` returns positive infinity, which
is neither the "no value" result nor a finite number — so "returns either
a finite floating-point number or no value" fails as stated. -/
theorem C6_to_float_infinite_counterexample :
    to_float (PyVal.str "inf") = some PyFloat.inf ∧
    ¬(to_float (PyVal.str "inf") = Option.none ∨
      ∃ q : ℚ, to_float (PyVal.str "inf") = some (PyFloat.finite q)) := by
  have h : to_float (PyVal.str "inf") = some PyFloat.inf := by
    norm_num +decide [to_float, removeChar, removeRs, stripList, isPySpace,
      pyFloatOfChars, parseUnsigned, expTail, List.dropWhile_cons, List.dropWhile_nil]
  refine ⟨h, ?_⟩
  rw [h]
  simp

/-- C6 (amended): `to_float` is total — for every string, numeric or null
input it returns either a floating-point value (finite for ordinary
numerals; the tokens `inf`/`infinity`/`nan` parse to the corresponding
non-finite values) or the "no value" result, and never raises; currency
symbols, thousands separators and surrounding whitespace are stripped, the
first whitespace-delimited token is parsed, and any parse failure yields
"no value". -/
theorem C6_to_float_total_amended :
    (∀ x : PyVal, to_float x = Option.none ∨ ∃ p : PyFloat, to_float x = some p) ∧
    to_float PyVal.none = Option.none ∧
    (∀ p : PyFloat, to_float (PyVal.num p) = some p) ∧
    to_float (PyVal.str "  ₹1,234.50 Cr ") = some (PyFloat.finite (2469 / 2)) ∧
    to_float (PyVal.str "Rs. 42") = some (PyFloat.finite 42) ∧
    to_float (PyVal.str "inf") = some PyFloat.inf ∧
    to_float (PyVal.str "abc") = Option.none ∧
    to_float (PyVal.str "") = Option.none ∧
    to_float (PyVal.str "12.3.4") = Option.none := by
  have h1 : digitsToNat ['1', '2', '3', '4'] = 1234 := by decide
  have h2 : digitsToNat ['5', '0'] = 50 := by decide
  have h3 : digitsToNat ['4', '2'] = 42 := by decide
  refine ⟨fun x => ?_, rfl, fun p => rfl, ?_, ?_, ?_, ?_, ?_, ?_⟩
  · cases h : to_float x with
    | none => exact Or.inl rfl
    | some p => exact Or.inr ⟨p, rfl⟩
  all_goals
    norm_num +decide [to_float, removeChar, removeRs, stripList, isPySpace,
      pyFloatOfChars, parseUnsigned, expTail, List.dropWhile_cons, List.dropWhile_nil,
      h1, h2, h3]

/-- C7 counterexample: at the exact expiry instant the entry is still
returned.  With `set` at time 0 and ttl 60 the stored expiry is 60; a
`get` at current time 60 returns the value, although `60 < 60` is false —
so "visible only while current time < expires_at" fails as stated
(`cache_get` only treats the entry as expired when `now > expires`). -/
theorem C7_cache_visible_at_expiry_counterexample :
    (cache_get 60 (cache_set 0 (emptyCache ℕ) "k" 42 60) "k").1 = some 42 ∧
    ¬((60 : ℤ) < 0 + 60) := by
  constructor
  · decide
  · decide

/-- C7 (amended): after `set(k, v, ttl)` at time `t`, `get(k)` returns `v`
at every current time ≤ `t + ttl` and returns absent — evicting the
entry — at every current time > `t + ttl`; the entry is visible exactly
while current time ≤ expires_at, and a second `set` on the same key
unconditionally overwrites the prior value and expiry. -/
theorem C7_cache_ttl_amended {α : Type} (tset tget t2 ttl ttl2 : ℤ) (c : Cache α)
    (k : String) (v v2 : α) :
    (tget ≤ tset + ttl → (cache_get tget (cache_set tset c k v ttl) k).1 = some v) ∧
    (tset + ttl < tget →
      (cache_get tget (cache_set tset c k v ttl) k).1 = Option.none ∧
      (cache_get tget (cache_set tset c k v ttl) k).2 k = Option.none) ∧
    cache_set t2 (cache_set tset c k v ttl) k v2 ttl2 k = some (v2, t2 + ttl2) := by
  refine ⟨fun h => ?_, fun h => ?_, ?_⟩
  · have h2 : ¬(tset + ttl < tget) := not_lt.2 h
    simp [cache_get, cache_set, h2]
  · simp [cache_get, cache_set, h]
  · simp [cache_set]

theorem C7_cache_ttl_amended_witness :
    (cache_get 60 (cache_set 0 (emptyCache ℕ) "j" 42 60) "j").1 = some 42 ∧
    (cache_get 61 (cache_set 0 (emptyCache ℕ) "j" 42 60) "j").1 = Option.none :=
  ⟨(C7_cache_ttl_amended 0 60 0 60 0 (emptyCache ℕ) "j" 42 0).1 (by norm_num),
   ((C7_cache_ttl_amended 0 61 0 60 0 (emptyCache ℕ) "j" 42 0).2.1 (by norm_num)).1⟩

/-- C8: the free-text P/E fallback regular expression cannot match
ordinary page text.  Written as a raw string with doubled backslashes,
the pattern demands literal backslash characters after `E`; on the page
text `"P/E 23.5"` (exactly the spec's example) the search finds nothing
and the extracted `pe` is absent, while the `to_float` coercion of the
number the spec expects to be captured would be 23.5. -/
theorem C8_freetext_pe_regex_dead :
    reSearchPE "P/E 23.5".data = Option.none ∧
    screener_freetext_pe "P/E 23.5" = Option.none ∧
    to_float (PyVal.str "23.5") = some (PyFloat.finite (47 / 2)) := by
  have hre : reSearchPE "P/E 23.5".data = Option.none := by decide
  have h1 : digitsToNat ['2', '3'] = 23 := by decide
  have h2 : digitsToNat ['5'] = 5 := by decide
  refine ⟨hre, ?_, ?_⟩
  · simp [screener_freetext_pe, hre, to_float]
  · norm_num +decide [to_float, removeChar, removeRs, stripList, isPySpace,
      pyFloatOfChars, parseUnsigned, expTail, List.dropWhile_cons, List.dropWhile_nil,
      h1, h2]

/-- C9: autocomplete is a case-insensitive prefix filter over the
directory: a blank query answers `[]`; at most 25 entries are returned;
for a non-blank normalized query the result is exactly the first 25
directory entries (in load order, hence a sublist of the directory) that
start with the normalized query; every returned entry starts with the
query and is in the directory, and — whenever at most 25 entries match —
every matching directory entry is returned; on the directory
`[RELIANCE.NS, RELAXO.NS, TCS.NS]` the query `"REL"` returns
`[RELIANCE.NS, RELAXO.NS]`. -/
theorem C9_search_prefix_filter (q : String) (dir : List String) (T : String) :
    search_api "" dir = [] ∧
    (search_api q dir).length ≤ 25 ∧
    (pyStrip (pyUpper q) ≠ "" →
      search_api q dir =
        (dir.filter (fun s => pyStartsWith s (pyStrip (pyUpper q)))).take 25) ∧
    (T ∈ search_api q dir → pyStartsWith T (pyStrip (pyUpper q)) = true ∧ T ∈ dir) ∧
    List.Sublist (search_api q dir) dir ∧
    (pyStrip (pyUpper q) ≠ "" →
      (dir.filter (fun s => pyStartsWith s (pyStrip (pyUpper q)))).length ≤ 25 →
      T ∈ dir → pyStartsWith T (pyStrip (pyUpper q)) = true → T ∈ search_api q dir) ∧
    search_api "REL" ["RELIANCE.NS", "RELAXO.NS", "TCS.NS"] =
      ["RELIANCE.NS", "RELAXO.NS"] := by
  have hblank : pyStrip (pyUpper "") = "" := by decide
  refine ⟨?_, ?_, fun hq => ?_, fun hT => ?_, ?_, fun hq hlen hTd hTp => ?_, by decide⟩
  · simp [search_api, hblank]
  · simp only [search_api]
    split_ifs
    · simp
    · exact List.length_take_le 25 _
  · simp only [search_api]
    rw [if_neg hq]
  · simp only [search_api] at hT
    split_ifs at hT with hq
    · simp at hT
    · have hmem := List.mem_of_mem_take hT
      have := List.mem_filter.1 hmem
      exact ⟨this.2, this.1⟩
  · simp only [search_api]
    split_ifs
    · exact List.nil_sublist dir
    · exact (List.take_sublist 25 _).trans (List.filter_sublist dir)
  · simp only [search_api]
    rw [if_neg hq, List.take_of_length_le hlen]
    exact List.mem_filter.2 ⟨hTd, hTp⟩

theorem C9_search_prefix_filter_witness :
    search_api "rel " ["RELIANCE.NS", "RELAXO.NS", "TCS.NS"] =
      ((["RELIANCE.NS", "RELAXO.NS", "TCS.NS"]).filter
        (fun s => pyStartsWith s (pyStrip (pyUpper "rel ")))).take 25 :=
  (C9_search_prefix_filter "rel " ["RELIANCE.NS", "RELAXO.NS", "TCS.NS"] "TCS.NS").2.2.1
    (by decide)

end StockApp
